import Mathlib

/-!
# Verification of the support-intel enrichment pipeline

Shallow embedding of the enrichment consumer (`src/services/enricher/app.py`),
the shared vector-store helpers (`src/services/common/vector_store.py`), the
event schemas (`src/services/common/schemas.py`) and the KB chunker
(`src/services/api/app.py`, `_chunk_text`).

Conventions of the embedding:
* Python strings are Lean `String`; `len` is `String.length` (code points).
* Python floats are modelled by `PyFloat`: a finite rational, NaN, or an
  infinity, compared with IEEE semantics (every comparison against NaN is
  false); values that fail numeric coercion are `none`.
* Python `str.strip` / `str.rstrip` / `str.lower` / `"sep".join` /
  `s in t` / slicing are embedded as the `py`-prefixed helpers below.
* Database tables are association lists, the Kafka logs are Lean lists, and
  the per-message consumer iteration is the pure step function `stepMsg`
  further down; external effects (the LLM call, the dense retrieval result,
  the wall clock) are inputs of the step.
-/

namespace SupportIntel

/-- Python `str.strip()`: drop whitespace from both ends. -/
def pyStrip (s : String) : String :=
  ⟨((s.data.dropWhile Char.isWhitespace).reverse.dropWhile Char.isWhitespace).reverse⟩

/-- Python `str.rstrip()`: drop trailing whitespace. -/
def pyRstrip (s : String) : String :=
  ⟨(s.data.reverse.dropWhile Char.isWhitespace).reverse⟩

/-- Python `str.lower()` (ASCII, enough for the values the code handles). -/
def pyLower (s : String) : String := ⟨s.data.map Char.toLower⟩

/-- Python `sep.join(parts)`. -/
def pyJoin (sep : String) : List String → String
  | [] => ""
  | [p] => p
  | p :: rest => p ++ sep ++ pyJoin sep rest

/-- Python `str.split()` with no argument: split on whitespace runs,
dropping empty pieces. -/
def pyWords (s : String) : List String :=
  (s.split Char.isWhitespace).filter (fun w => w ≠ "")

/-- Contiguous-sublist test on character lists, used to embed Python
`needle in hay` on strings. -/
def subOf : List Char → List Char → Bool
  | n, [] => n.isEmpty
  | n, c :: t => n.isPrefixOf (c :: t) || subOf n t

/-- Python `needle in hay` for strings. -/
def substrOf (needle hay : String) : Bool := subOf needle.data hay.data

/-- Python `s.startswith(pre)`. -/
def pyStartsWith (s pre : String) : Bool := pre.data.isPrefixOf s.data

/-- Python `value or default` for an optional string field: `None` and the
empty string are falsy. -/
def pyOr (v : Option String) (dflt : String) : String :=
  match v with
  | none => dflt
  | some s => if s = "" then dflt else s

/-- Python slice `s[a:b]` (for `0 ≤ a ≤ b`). -/
def pySlice (s : String) (a b : Nat) : String := ⟨(s.data.take b).drop a⟩

/-- Python `s[:n]`. -/
def pyTake (s : String) (n : Nat) : String := ⟨s.data.take n⟩

/-! ## Enumerations (`src/services/common/schemas.py`) -/

/-- `CATEGORY_ENUM` from `schemas.py`. -/
def CATEGORY_ENUM : List String :=
  ["account_access", "billing", "security_incident", "data_refresh", "exports",
   "feature_request", "integration", "notifications", "general"]

/-- `SENTIMENT_ENUM` from `schemas.py`. -/
def SENTIMENT_ENUM : List String := ["positive", "neutral", "negative"]

/-! ## Enrichment normalizers (`src/services/enricher/app.py`) -/

/-- A Python float as `_clamp_risk` can receive it: a finite value (embedded
as a rational), NaN, or an infinity. NaN is reachable — `json.loads` accepts
a literal `NaN` in the LLM reply and `float("nan")` succeeds on strings. -/
inductive PyFloat where
  | num : Rat → PyFloat
  | nan : PyFloat
  | inf : PyFloat
  | ninf : PyFloat
  deriving DecidableEq, Repr

/-- IEEE `<` on Python floats: every comparison involving NaN is false. -/
def pyLt : PyFloat → PyFloat → Bool
  | .nan, _ => false
  | _, .nan => false
  | .num a, .num b => decide (a < b)
  | .ninf, .ninf => false
  | .ninf, _ => true
  | _, .ninf => false
  | .inf, _ => false
  | .num _, .inf => true

/-- IEEE `>` on Python floats. -/
def pyGt (a b : PyFloat) : Bool := pyLt b a

/-- The float lies within `[0, 1]` (false for NaN and the infinities). -/
def isUnit : PyFloat → Bool
  | .num q => decide (0 ≤ q) && decide (q ≤ 1)
  | _ => false

/-- `_clamp_risk`: the argument is `some f` when Python `float(value)`
succeeds with value `f` (possibly NaN or an infinity), `none` when the
coercion raises. `risk < 0.0` and `risk > 1.0` are the IEEE comparisons, so
a NaN falls through both and is returned unchanged. -/
def clampRisk (value : Option PyFloat) : PyFloat :=
  match value with
  | none => .num 0
  | some risk =>
    if pyLt risk (.num 0) then .num 0
    else if pyGt risk (.num 1) then .num 1
    else risk

/-- `enriched.get("risk", 0.0)`: a missing key defaults to the numeric `0.0`;
a present key carries its own coercion outcome. -/
def riskLookup (field : Option (Option PyFloat)) : Option PyFloat :=
  match field with
  | none => some (.num 0)
  | some v => v

/-- `_normalize_sentiment`. -/
def normalizeSentiment (value : Option String) : String :=
  match value with
  | none => "neutral"
  | some s =>
    if s = "" then "neutral"
    else
      let v := pyLower (pyStrip s)
      if SENTIMENT_ENUM.contains v then v
      else if ["frustrated", "angry", "upset", "negative"].contains v then "negative"
      else if ["happy", "satisfied", "positive"].contains v then "positive"
      else "neutral"

/-- `_normalize_category`. The chained `in` tests are Python substring tests;
the third branch keeps the source's `"refresh" in v or "data" in v and
"refresh" in v` (which Python parses as `a or (b and a)`). -/
def normalizeCategory (value : Option String) : String :=
  match value with
  | none => "general"
  | some s =>
    if s = "" then "general"
    else
      let v := pyLower (pyStrip s)
      if CATEGORY_ENUM.contains v then v
      else if substrOf "billing" v || substrOf "invoice" v || substrOf "refund" v
          || substrOf "charge" v then "billing"
      else if substrOf "security" v || substrOf "breach" v || substrOf "incident" v then
        "security_incident"
      else if substrOf "refresh" v || (substrOf "data" v && substrOf "refresh" v) then
        "data_refresh"
      else if substrOf "export" v then "exports"
      else if substrOf "feature" v || substrOf "roadmap" v then "feature_request"
      else if substrOf "oauth" v || substrOf "api key" v || substrOf "integration" v then
        "integration"
      else if substrOf "alert" v || substrOf "notification" v || substrOf "slack" v then
        "notifications"
      else if substrOf "login" v || substrOf "password" v || substrOf "account" v
          || substrOf "access" v then "account_access"
      else "general"

/-- The fixed keyword table of the specification, first-match: each rule is a
keyword list together with the category it yields; no matching rule means
`general`. Stated from the wording of the spec to compare with
`normalizeCategory`. -/
def CATEGORY_RULES : List (List String × String) :=
  [(["billing", "invoice", "refund", "charge"], "billing"),
   (["security", "breach", "incident"], "security_incident"),
   (["refresh"], "data_refresh"),
   (["export"], "exports"),
   (["feature", "roadmap"], "feature_request"),
   (["oauth", "api key", "integration"], "integration"),
   (["alert", "notification", "slack"], "notifications"),
   (["login", "password", "account", "access"], "account_access")]

/-- First matching rule of `CATEGORY_RULES` applied to an already
lowercased/trimmed value (spec wording). -/
def firstMatchCategory (v : String) : String :=
  match CATEGORY_RULES.find? (fun r => r.1.any (fun k => substrOf k v)) with
  | some r => r.2
  | none => "general"

/-- `_trim_reply`. -/
def trimReply (text : Option String) (maxWords : Nat := 140) : String :=
  match text with
  | none => ""
  | some t =>
    if t = "" then ""
    else
      let words := pyWords t
      if words.length ≤ maxWords then t
      else pyRstrip (pyJoin " " (words.take maxWords)) ++ "…"

/-! ## KB chunks as seen by the consumer (`_rows_to_chunks` in
`src/services/common/vector_store.py` builds dicts with keys `id`, `doc_id`,
`chunk_index`, `heading_path`, `content`, `title`, `source`, `source_url`).
Only the fields the enricher reads are carried; each is optional, modelling
dict lookups that may miss or hold SQL NULL. -/

structure KbChunk where
  id : Option Int
  title : Option String
  heading_path : Option String
  content : Option String
  deriving DecidableEq, Repr

/-! ## KB-context assembly (`_format_kb_context`) -/

/-- The block built for one chunk inside `_format_kb_context`:
`f"{header}\n{content}".strip()` with
`header = f"{title or 'Untitled'} | {heading_path or ''}".strip()` and
`content = (chunk.get("content") or "").strip()`. -/
def chunkBlock (c : KbChunk) : String :=
  let header := pyStrip (pyOr c.title "Untitled" ++ " | " ++ pyOr c.heading_path "")
  let content := pyStrip (pyOr c.content "")
  pyStrip (header ++ "\n" ++ content)

/-- The `for chunk in chunks` loop of `_format_kb_context`, carrying the
accumulated `parts` and running `total`. -/
def formatGo (maxChars : Nat) : List KbChunk → List String → Nat → List String
  | [], parts, _ => parts
  | c :: rest, parts, total =>
    let block := chunkBlock c
    if block = "" then formatGo maxChars rest parts total
    else if total + block.length + 2 > maxChars then
      let remaining := maxChars - total
      if remaining > 0 then parts ++ [pyTake block remaining] else parts
    else formatGo maxChars rest (parts ++ [block]) (total + block.length + 2)

/-- `_format_kb_context(chunks, max_chars=4000)`. -/
def formatKbContext (chunks : List KbChunk) (maxChars : Nat := 4000) : String :=
  if chunks = [] then "" else pyJoin "\n\n" (formatGo maxChars chunks [] 0)

/-! ## Hybrid candidate merge and citations

The enricher unit tests (`src/services/enricher/tests/test_enricher.py`)
refer to `_merge_candidates` and `_build_citations` of
`services/enricher/app.py`, but both functions are absent from the copy of
that file under `src/`; only their configuration (`HYBRID_SEARCH_ENABLED`,
`HYBRID_KEYWORD_MAX`), the keyword search they consume
(`search_keyword_chunks`) and the `citations` column migration are present.
They are therefore modelled from the spec below. -/

/-- Modelled from the spec: the loop of `_merge_candidates` (absent from
`src/services/enricher/app.py`, referenced by its unit tests) — append
keyword candidates to the accumulated list, skipping chunks whose `id`
already appears, until the merged list reaches `limit` or `secondaryMax`
keyword entries have been added. -/
def mergeGo (limit secondaryMax : Nat) : List KbChunk → List KbChunk → Nat → List KbChunk
  | [], acc, _ => acc
  | c :: rest, acc, added =>
    if limit ≤ acc.length ∨ secondaryMax ≤ added then acc
    else
      match c.id with
      | some i =>
        if i ∈ acc.filterMap KbChunk.id then mergeGo limit secondaryMax rest acc added
        else mergeGo limit secondaryMax rest (acc ++ [c]) (added + 1)
      | none => mergeGo limit secondaryMax rest (acc ++ [c]) (added + 1)

/-- Modelled from the spec: `_merge_candidates(primary, secondary, limit,
secondary_max)` — start with the dense candidates in order, then extend with
keyword candidates via `mergeGo`. -/
def mergeCandidates (primary secondary : List KbChunk) (limit secondaryMax : Nat) :
    List KbChunk :=
  mergeGo limit secondaryMax secondary primary 0

/-- Modelled from the spec: the consumer's candidate-list construction — with
`HYBRID_SEARCH_ENABLED` the deterministic positional merge of the dense and
keyword candidates, otherwise the dense list truncated to `KB_CANDIDATES`. -/
def retrieveCandidates (hybridEnabled : Bool) (kbCandidates keywordMax : Nat)
    (dense keyword : List KbChunk) : List KbChunk :=
  if hybridEnabled then mergeCandidates dense keyword kbCandidates keywordMax
  else dense.take kbCandidates

/-- One citation entry of an `EnrichedEvent`. -/
structure Citation where
  chunk_id : Int
  title : String
  heading_path : String
  deriving DecidableEq, Repr

/-- Modelled from the spec: `_build_citations(chunks)` (absent from
`src/services/enricher/app.py`, referenced by its unit tests) — for each
chunk that still has an `id`, emit `{chunk_id, title or "Untitled",
heading_path or ""}`; drop chunks with no `id`. -/
def buildCitations (chunks : List KbChunk) : List Citation :=
  chunks.filterMap (fun c =>
    match c.id with
    | some i => some ⟨i, pyOr c.title "Untitled", pyOr c.heading_path ""⟩
    | none => none)

/-! ## KB chunker (`_chunk_text` in `src/services/api/app.py`) -/

/-- The `_Paragraph` TypedDict of phase 1 of `_chunk_text`. -/
structure Para where
  text : String
  heading_path : String
  is_heading : Bool
  deriving DecidableEq, Repr

/-- `current_heading_path()`: `" > ".join` of the non-empty heading texts on
the stack (stack top at the end of the list, as in the Python list). -/
def currentHeadingPath (stack : List (Nat × String)) : String :=
  pyJoin " > " ((stack.map Prod.snd).filter (fun h => h ≠ ""))

/-- `flush_paragraph`: append the pending body lines (joined with
newlines and stripped) as a paragraph, unless empty. Returns the grown
paragraph list; the source also clears `current`, which the caller does here
by passing `[]` onward. -/
def flushParagraph (cur : List String) (stack : List (Nat × String))
    (paras : List Para) : List Para :=
  if cur = [] then paras
  else paras ++ [⟨pyStrip (pyJoin "\n" cur), currentHeadingPath stack, false⟩]

/-- `len(stripped.split()[0])`: the length of the first whitespace-delimited
token (the line starts with `#`, hence is non-empty with a non-blank head). -/
def headingLevel (stripped : String) : Nat :=
  (stripped.data.takeWhile (fun c => ¬ c.isWhitespace)).length

/-- `stripped.lstrip("#").strip()`. -/
def headingText (stripped : String) : String :=
  pyStrip ⟨stripped.data.dropWhile (fun c => c = '#')⟩

/-- `while heading_stack and heading_stack[-1][0] >= level: heading_stack.pop()`
followed by the push — popping from the end of the Python list. -/
def pushHeading (stack : List (Nat × String)) (level : Nat) (htext : String) :
    List (Nat × String) :=
  ((stack.reverse.dropWhile (fun h => level ≤ h.1)).reverse) ++ [(level, htext)]

/-- Phase 1 of `_chunk_text`: the `for line in lines` loop, over the raw
lines with state `(current, heading_stack, paragraphs)`. -/
def linesGo : List String → List String → List (Nat × String) → List Para → List Para
  | [], cur, stack, paras => flushParagraph cur stack paras
  | line :: rest, cur, stack, paras =>
    let stripped := pyStrip line
    if pyStartsWith stripped "#" then
      let paras1 := flushParagraph cur stack paras
      let stack' := pushHeading stack (headingLevel stripped) (headingText stripped)
      linesGo rest [] stack' (paras1 ++ [⟨stripped, currentHeadingPath stack', true⟩])
    else if stripped = "" then
      linesGo rest [] stack (flushParagraph cur stack paras)
    else
      linesGo rest (cur ++ [stripped]) stack paras

/-- Split a character list at newline characters (the separators are
dropped; `n` separators yield `n + 1` pieces). -/
def splitNl : List Char → List (List Char)
  | [] => [[]]
  | c :: rest =>
    if c = '\n' then [] :: splitNl rest
    else
      match splitNl rest with
      | h :: t => (c :: h) :: t
      | [] => [[c]]

/-- `[line.rstrip() for line in text.splitlines()]`: split at newlines, then
right-strip each line. (For a text ending in a newline, `str.splitlines`
omits the final empty piece that this splitter keeps; that piece right-strips
to the empty line, which phase 1 of the chunker treats as a no-op blank, so
the paragraphs are unaffected.) -/
def pyLines (text : String) : List String :=
  (splitNl text.data).map (fun l => pyRstrip ⟨l⟩)

/-- Phase 1 of `_chunk_text` as a whole: split a text into paragraphs. -/
def splitParagraphs (text : String) : List Para :=
  linesGo (pyLines text) [] [] []

/-- An emitted chunk `{content, heading_path}` of `_chunk_text`. -/
structure ChunkOut where
  content : String
  heading_path : String
  deriving DecidableEq, Repr

/-- `push_chunk(value, heading_path)`: append `value.strip()` unless blank. -/
def pushChunk (value hp : String) (chunks : List ChunkOut) : List ChunkOut :=
  if pyStrip value = "" then chunks else chunks ++ [⟨pyStrip value, hp⟩]

/-- The `while start < len(text_block)` slicing loop of `_chunk_text` for an
oversized paragraph: windows of at most `cs` characters with `ov` trailing
characters of overlap. The precondition `ov < cs` (enforced by the
`ValueError` in `chunkText`) makes the loop terminate. -/
def sliceGo (cs ov : Nat) (hlt : ov < cs) (tb hp : String) (start : Nat)
    (chunks : List ChunkOut) : List ChunkOut :=
  if hs : start < tb.length then
    let e := min (start + cs) tb.length
    let chunks' := pushChunk (pySlice tb start e) hp chunks
    if he : e = tb.length then chunks'
    else sliceGo cs ov hlt tb hp (e - ov) chunks'
  else chunks
  termination_by tb.length - start
  decreasing_by
    have h1 : start + cs < tb.length := by
      rcases Nat.lt_or_ge (start + cs) tb.length with h | h
      · exact h
      · exact absurd (Nat.min_eq_right h) he
    have h2 : min (start + cs) tb.length = start + cs := Nat.min_eq_left (Nat.le_of_lt h1)
    simp only [h2]
    omega

/-- Phase 2 of `_chunk_text`: the `for para in paragraphs` loop with state
`(buf, buf_heading, chunks)`. -/
def assembleGo (cs ov : Nat) (hlt : ov < cs) :
    List Para → String → String → List ChunkOut → List ChunkOut
  | [], buf, bh, chunks => if buf ≠ "" then pushChunk buf bh chunks else chunks
  | para :: rest, buf, bh, chunks =>
    let hp := para.heading_path
    let tb := para.text
    -- "if buf and heading_path and buf_heading and heading_path != buf_heading"
    let flushed : String × String × List ChunkOut :=
      if buf ≠ "" ∧ hp ≠ "" ∧ bh ≠ "" ∧ hp ≠ bh then ("", "", pushChunk buf bh chunks)
      else (buf, bh, chunks)
    let buf1 := flushed.1
    let bh1 := flushed.2.1
    let chunks1 := flushed.2.2
    if cs ≤ tb.length then
      -- "if len(text_block) >= chunk_size"
      let chunks2 := if buf1 ≠ "" then pushChunk buf1 bh1 chunks1 else chunks1
      assembleGo cs ov hlt rest "" "" (sliceGo cs ov hlt tb hp 0 chunks2)
    else if buf1 = "" then
      assembleGo cs ov hlt rest tb hp chunks1
    else
      let candidate := buf1 ++ "\n\n" ++ tb
      if candidate.length ≤ cs then assembleGo cs ov hlt rest candidate bh1 chunks1
      else assembleGo cs ov hlt rest tb hp (pushChunk buf1 bh1 chunks1)

/-- `_chunk_text(text, chunk_size=1000, overlap=150)`; the `ValueError` on
`chunk_size <= overlap` is the `Except.error` case. -/
def chunkText (text : String) (cs : Nat := 1000) (ov : Nat := 150) :
    Except String (List ChunkOut) :=
  if h : cs ≤ ov then Except.error "chunk_size must be greater than overlap"
  else Except.ok (assembleGo cs ov (Nat.lt_of_not_le (fun hc => h hc)) (splitParagraphs text) "" "" [])

/-! ## The consumer loop, per message (`main` in
`src/services/enricher/app.py`, lines 293-397)

One poll iteration is embedded as the pure function `stepMsg` on an explicit
store/log state. The message decode+schema validation outcome, the LLM call
outcome, the wall clock and the success of the store transaction are inputs;
retrieval only influences the step through the LLM outcome and is therefore
not a separate input. -/

/-- A validated `TicketEvent` (all required schema fields present and
typed). -/
structure TicketEvent where
  schema_version : Int
  event_id : String
  ticket_id : String
  ts : String
  subject : String
  body : String
  channel : String
  priority : String
  customer_id : Option String
  deriving DecidableEq, Repr

/-- The value-level constraints of `TICKET_EVENT_SCHEMA` on a structurally
complete ticket: `schema_version == 1`, `len(event_id) >= 8`,
`len(ticket_id) >= 1`. -/
def validateTicket (t : TicketEvent) : Bool :=
  t.schema_version = 1 && 8 ≤ t.event_id.length && 1 ≤ t.ticket_id.length

/-- Outcome of `json.loads` + `validate(..., TICKET_EVENT_SCHEMA)` on the
message payload: empty payload (`ValueError`), JSON decode error, schema
validation error (carrying the `ticket_id` when one is extractable for
`_mark_failed`), or a structurally valid ticket. -/
inductive MsgDecode where
  | empty : MsgDecode
  | badJson : String → MsgDecode
  | invalid : String → Option String → MsgDecode
  | valid : TicketEvent → MsgDecode
  deriving DecidableEq, Repr

/-- One polled Kafka message (payload already UTF-8 decoded where
possible). -/
structure Msg where
  topic : String
  partIdx : Int
  offset : Int
  raw : Option String
  decoded : MsgDecode
  deriving DecidableEq, Repr

/-- The parsed LLM JSON object. Each key may be absent (`none`); `risk` is
`some (some f)` for a numerically coercible value `f` (possibly NaN or an
infinity), `some none` for a present but non-coercible one. A missing or
non-string `summary` is `none`. -/
structure LlmObj where
  summary : Option String
  category : Option String
  sentiment : Option String
  risk : Option (Option PyFloat)
  suggested_reply : Option String
  deriving DecidableEq, Repr

/-- Outcome of `call_claude`: a `json.JSONDecodeError` (caught by the first
`except` arm), any other exception such as a transport error (caught by the
second arm as `unexpected: ...`), or a parsed object. -/
inductive LlmResult where
  | jsonError : String → LlmResult
  | unexpectedErr : String → LlmResult
  | ok : LlmObj → LlmResult
  deriving DecidableEq, Repr

/-- One `enriched_tickets` row (the columns `main` writes; timestamps are
omitted). `ON CONFLICT ... DO UPDATE` only overwrites the enrichment
columns, so the descriptive columns stay optional. -/
structure TicketRow where
  ticket_id : String
  last_event_id : Option String
  subject : Option String
  body : Option String
  channel : Option String
  priority : Option String
  customer_id : Option String
  status : String
  summary : Option String
  category : Option String
  sentiment : Option String
  risk : Option PyFloat
  suggested_reply : Option String
  deriving DecidableEq, Repr

/-- The outbound `EnrichedEvent` built by `main` (`out = {..., **enriched}`);
`summary` is optional because the spread only adds the key when the LLM
returned it. -/
structure OutEvent where
  schema_version : Int
  event_id : String
  ticket_id : String
  ts : String
  summary : Option String
  category : String
  sentiment : String
  risk : PyFloat
  suggested_reply : String
  deriving DecidableEq, Repr

/-- `validate(out, ENRICHED_EVENT_SCHEMA)` on the built event: all required
keys present and typed (`summary` is the only one that can be missing),
`risk` within bounds, the enums closed, and the minimum lengths. The
jsonschema `minimum`/`maximum` keywords error when `instance < minimum`
respectively `instance > maximum`, so a NaN risk — for which both IEEE
comparisons are false — passes the bound checks. -/
def validateEnriched (e : OutEvent) : Bool :=
  e.summary.isSome && !(pyLt e.risk (.num 0)) && !(pyGt e.risk (.num 1))
    && CATEGORY_ENUM.contains e.category && SENTIMENT_ENUM.contains e.sentiment
    && 8 ≤ e.event_id.length && 1 ≤ e.ticket_id.length && e.schema_version = 1

/-- A DLQ record (`dlq` in `app.py`). -/
structure DlqRecord where
  failed_topic : String
  partIdx : Int
  offset : Int
  error : String
  payload : Option String
  ts : String
  deriving DecidableEq, Repr

/-- `dlq(producer, msg, err)`: package the failed message. -/
def dlqRecord (msg : Msg) (err : String) (now : String) : DlqRecord :=
  ⟨msg.topic, msg.partIdx, msg.offset, err, msg.raw, now⟩

/-- `already_processed` / the `processed_events` table as a list of event
ids. -/
def markProcessed (led : List String) (eventId : String) : List String :=
  if eventId ∈ led then led else led ++ [eventId]

/-- `_mark_failed`: set `status='failed'` for the extracted `ticket_id`, if
any (Python also skips a falsy empty id). -/
def markFailed (rows : List TicketRow) (tid : Option String) : List TicketRow :=
  match tid with
  | none => rows
  | some t =>
    if t = "" then rows
    else rows.map (fun r => if r.ticket_id = t then { r with status := "failed" } else r)

/-- The `INSERT ... ON CONFLICT (ticket_id) DO UPDATE` upsert of `main`:
insert the full row, or overwrite only the columns listed in the `DO UPDATE
SET` clause. -/
def upsertEnriched (rows : List TicketRow) (row : TicketRow) : List TicketRow :=
  if rows.any (fun r => r.ticket_id = row.ticket_id) then
    rows.map (fun r =>
      if r.ticket_id = row.ticket_id then
        { r with
          last_event_id := row.last_event_id
          status := "enriched"
          summary := row.summary
          category := row.category
          sentiment := row.sentiment
          risk := row.risk
          suggested_reply := row.suggested_reply }
      else r)
  else rows ++ [row]

/-- The visible state the consumer manipulates: the idempotency ledger, the
`enriched_tickets` table, the output topic and the DLQ topic. -/
structure State where
  processed : List String
  tickets : List TicketRow
  outLog : List OutEvent
  dlqLog : List DlqRecord
  deriving DecidableEq, Repr

/-- Per-message outcome flags: which terminal actions the iteration took. -/
structure Outcome where
  offsetCommitted : Bool
  published : Bool
  storeCommitted : Bool
  dlqd : Bool
  duplicate : Bool
  deriving DecidableEq, Repr

/-- The `rollback → dlq → _mark_failed → commit offset` error arc shared by
both `except` arms of `main`. -/
def dlqArc (st : State) (msg : Msg) (err : String) (tid : Option String)
    (now : String) : State × Outcome :=
  ({ st with
      dlqLog := st.dlqLog ++ [dlqRecord msg err now]
      tickets := markFailed st.tickets tid },
   ⟨true, false, false, true, false⟩)

/-- One iteration of the consumer loop of `main` for a successfully polled
message: decode/validate, duplicate check, LLM call, normalization, the
store transaction, output validation + publish, offset commit; every
exception routes through `dlqArc`. `storeOk` models whether the store
transaction itself succeeds. -/
def stepMsg (st : State) (msg : Msg) (llm : LlmResult) (now : String)
    (storeOk : Bool) : State × Outcome :=
  match msg.decoded with
  | .empty => dlqArc st msg "empty payload" none now
  | .badJson e => dlqArc st msg e none now
  | .invalid e tid => dlqArc st msg e tid now
  | .valid t =>
    if validateTicket t = false then
      dlqArc st msg "ticket schema validation error" (some t.ticket_id) now
    else if t.event_id ∈ st.processed then
      -- "if already_processed(conn, event_id): consumer.commit(...); continue"
      (st, ⟨true, false, false, false, true⟩)
    else
      match llm with
      | .jsonError e => dlqArc st msg e (some t.ticket_id) now
      | .unexpectedErr e => dlqArc st msg ("unexpected: " ++ e) (some t.ticket_id) now
      | .ok obj =>
        if storeOk = false then
          dlqArc st msg "unexpected: store error" (some t.ticket_id) now
        else
          let cat := normalizeCategory obj.category
          let sent := normalizeSentiment obj.sentiment
          let risk := clampRisk (riskLookup obj.risk)
          let reply := trimReply obj.suggested_reply
          let row : TicketRow :=
            { ticket_id := t.ticket_id
              last_event_id := some t.event_id
              subject := some t.subject
              body := some t.body
              channel := some t.channel
              priority := some t.priority
              customer_id := t.customer_id
              status := "enriched"
              summary := obj.summary
              category := some cat
              sentiment := some sent
              risk := some risk
              suggested_reply := some reply }
          -- the transaction: upsert + mark_processed + conn.commit()
          let st1 : State :=
            { st with
                tickets := upsertEnriched st.tickets row
                processed := markProcessed st.processed t.event_id }
          let out : OutEvent :=
            { schema_version := 1
              event_id := t.event_id
              ticket_id := t.ticket_id
              ts := now
              summary := obj.summary
              category := cat
              sentiment := sent
              risk := risk
              suggested_reply := reply }
          if validateEnriched out then
            ({ st1 with outLog := st1.outLog ++ [out] }, ⟨true, true, true, false, false⟩)
          else
            -- validate(out) raises ONLY AFTER conn.commit(): the ValidationError
            -- lands in the first except arm with the transaction already durable
            ({ st1 with
                dlqLog := st1.dlqLog ++ [dlqRecord msg "enriched event schema validation error" now]
                tickets := markFailed st1.tickets (some t.ticket_id) },
             ⟨true, false, true, true, false⟩)

/-! ## Concrete sample data used by evaluation theorems and witnesses -/

/-- The happy-path ticket of the spec's scenario 1. -/
def sampleTicket : TicketEvent :=
  ⟨1, "evt-12345678", "T-1", "2026-01-28T00:00:00Z", "Payment failed", "Error 5001",
   "email", "high", none⟩

/-- A polled message carrying `sampleTicket`. -/
def sampleMsg : Msg :=
  ⟨"support.tickets.v1", 0, 42, some "payload", MsgDecode.valid sampleTicket⟩

/-- The initial empty store/log state. -/
def emptyState : State := ⟨[], [], [], []⟩

/-- An LLM reply that parsed to the empty JSON object `{}`. -/
def emptyLlmObj : LlmObj := ⟨none, none, none, none, none⟩

/-! ## Helper lemmas -/

theorem clampRisk_unit (v : Option PyFloat) (hv : v ≠ some PyFloat.nan) :
    isUnit (clampRisk v) = true := by
  rcases v with _ | f
  · decide
  · rcases f with q | _ | _ | _
    · have hl : pyLt (PyFloat.num q) (PyFloat.num 0) = decide (q < 0) := rfl
      have hg : pyGt (PyFloat.num q) (PyFloat.num 1) = decide (1 < q) := rfl
      simp only [clampRisk, hl, hg]
      by_cases h0 : q < 0
      · simp [h0, isUnit]
      · by_cases h1 : 1 < q
        · simp [h0, h1, isUnit]
        · rw [if_neg (by simpa using h0), if_neg (by simpa using h1)]
          simp only [isUnit, Bool.and_eq_true, decide_eq_true_eq]
          exact ⟨le_of_not_lt h0, le_of_not_lt h1⟩
    · exact absurd rfl hv
    · decide
    · decide

theorem mem_markFailed_risk {rows : List TicketRow} {tid : Option String} {r : TicketRow}
    (h : r ∈ markFailed rows tid) : ∃ r0 ∈ rows, r.risk = r0.risk := by
  cases tid with
  | none => exact ⟨r, h, rfl⟩
  | some t =>
    simp only [markFailed] at h
    split at h
    · exact ⟨r, h, rfl⟩
    · rcases List.mem_map.mp h with ⟨r0, hr0, hmap⟩
      refine ⟨r0, hr0, ?_⟩
      by_cases ht : r0.ticket_id = t <;> simp [ht] at hmap <;> subst hmap <;> rfl

theorem mem_upsert_risk {rows : List TicketRow} {row : TicketRow} {r : TicketRow}
    (h : r ∈ upsertEnriched rows row) :
    r.risk = row.risk ∨ ∃ r0 ∈ rows, r.risk = r0.risk := by
  simp only [upsertEnriched] at h
  split at h
  · rcases List.mem_map.mp h with ⟨r0, hr0, hmap⟩
    by_cases ht : r0.ticket_id = row.ticket_id
    · simp only [ht, if_true] at hmap
      left
      subst hmap
      rfl
    · simp only [ht, if_false] at hmap
      right
      exact ⟨r0, hr0, hmap ▸ rfl⟩
  · rcases List.mem_append.mp h with hmem | hmem
    · exact Or.inr ⟨r, hmem, rfl⟩
    · left
      simp only [List.mem_singleton] at hmem
      subst hmem
      rfl

theorem mem_dlqArc_tickets {st : State} {msg : Msg} {err : String} {tid : Option String}
    {now : String} {r : TicketRow} (h : r ∈ (dlqArc st msg err tid now).1.tickets) :
    ∃ r0 ∈ st.tickets, r.risk = r0.risk := by
  simp only [dlqArc] at h
  exact mem_markFailed_risk h

theorem stepMsg_risk_preserved (st : State) (msg : Msg) (llm : LlmResult) (now : String)
    (storeOk : Bool)
    (hst : ∀ r ∈ st.tickets, ∀ f, r.risk = some f → isUnit f = true)
    (hllm : ∀ obj, llm = LlmResult.ok obj → riskLookup obj.risk ≠ some PyFloat.nan) :
    ∀ r ∈ (stepMsg st msg llm now storeOk).1.tickets, ∀ f,
      r.risk = some f → isUnit f = true := by
  intro r hr f hf
  have hdlq : ∀ (err : String) (tid : Option String),
      r ∈ (dlqArc st msg err tid now).1.tickets → isUnit f = true := by
    intro err tid hmem
    obtain ⟨r0, hr0, he⟩ := mem_dlqArc_tickets hmem
    exact hst r0 hr0 f (he ▸ hf)
  simp only [stepMsg] at hr
  split at hr
  · exact hdlq _ _ hr
  · exact hdlq _ _ hr
  · exact hdlq _ _ hr
  · rename_i t _
    split at hr
    · exact hdlq _ _ hr
    · split at hr
      · exact hst r hr f hf
      · split at hr
        · exact hdlq _ _ hr
        · exact hdlq _ _ hr
        · rename_i obj
          have hnan : riskLookup obj.risk ≠ some PyFloat.nan := hllm obj rfl
          split at hr
          · exact hdlq _ _ hr
          · split at hr
            · dsimp only at hr
              rcases mem_upsert_risk hr with he | ⟨r0, hr0, he⟩
              · rw [he] at hf
                simp only [Option.some.injEq] at hf
                rw [← hf]
                exact clampRisk_unit _ hnan
              · exact hst r0 hr0 f (he ▸ hf)
            · dsimp only at hr
              obtain ⟨r1, hr1, he1⟩ := mem_markFailed_risk hr
              rcases mem_upsert_risk hr1 with he | ⟨r0, hr0, he⟩
              · rw [he1, he] at hf
                simp only [Option.some.injEq] at hf
                rw [← hf]
                exact clampRisk_unit _ hnan
              · rw [he1, he] at hf
                exact hst r0 hr0 f hf

/-! ## Claim theorems -/

/-- C5 counterexample: NaN is a reachable risk value (`json.loads` accepts
the literal `NaN`, and `float("nan")` succeeds), `_clamp_risk` returns it
unchanged — both IEEE comparisons against the bounds are false — and it is
outside `[0,1]`; the consumer step commits the NaN risk and, because the
jsonschema bound checks are also NaN-blind, even publishes the event. -/
theorem c5_nan_risk_counterexample :
    clampRisk (some PyFloat.nan) = PyFloat.nan
    ∧ isUnit PyFloat.nan = false
    ∧ ((stepMsg emptyState sampleMsg
          (LlmResult.ok ⟨some "Payment issue", some "billing", some "negative",
            some (some PyFloat.nan), some "Sorry"⟩)
          "2026-01-28T00:00:01Z" true).1.tickets.map TicketRow.risk
        = [some PyFloat.nan])
    ∧ (stepMsg emptyState sampleMsg
          (LlmResult.ok ⟨some "Payment issue", some "billing", some "negative",
            some (some PyFloat.nan), some "Sorry"⟩)
          "2026-01-28T00:00:01Z" true).2.published = true := by
  refine ⟨rfl, rfl, ?_, ?_⟩ <;> decide

/-- C5 (amended): for every input value other than NaN, `_clamp_risk`
returns a number within `[0,1]` — non-numeric inputs yield `0.0`, finite
values below `0` (and `-inf`) clamp to `0.0`, finite values above `1` (and
`+inf`) clamp to `1.0` — and a consumer step whose LLM risk is not NaN
preserves the invariant that every committed `enriched_tickets` risk lies
within `[0,1]`; a NaN input, however, is returned and committed unchanged. -/
theorem c5_risk_clamped_nonnan :
    (∀ v : Option PyFloat, v ≠ some PyFloat.nan → isUnit (clampRisk v) = true)
    ∧ clampRisk none = PyFloat.num 0
    ∧ (∀ q : Rat, q < 0 → clampRisk (some (PyFloat.num q)) = PyFloat.num 0)
    ∧ (∀ q : Rat, 1 < q → clampRisk (some (PyFloat.num q)) = PyFloat.num 1)
    ∧ clampRisk (some PyFloat.ninf) = PyFloat.num 0
    ∧ clampRisk (some PyFloat.inf) = PyFloat.num 1
    ∧ (∀ (st : State) (msg : Msg) (llm : LlmResult) (now : String) (storeOk : Bool),
        (∀ r ∈ st.tickets, ∀ f, r.risk = some f → isUnit f = true) →
        (∀ obj, llm = LlmResult.ok obj → riskLookup obj.risk ≠ some PyFloat.nan) →
        ∀ r ∈ (stepMsg st msg llm now storeOk).1.tickets, ∀ f,
          r.risk = some f → isUnit f = true) := by
  refine ⟨clampRisk_unit, rfl, ?_, ?_, by decide, by decide, stepMsg_risk_preserved⟩
  · intro q hq
    have hl : pyLt (PyFloat.num q) (PyFloat.num 0) = true := by
      simpa [pyLt] using hq
    simp [clampRisk, hl]
  · intro q hq
    have hl : pyLt (PyFloat.num q) (PyFloat.num 0) = false := by
      simp only [pyLt, decide_eq_false_iff_not]
      linarith
    have hg : pyGt (PyFloat.num q) (PyFloat.num 1) = true := by
      simpa [pyGt, pyLt] using hq
    simp [clampRisk, hl, hg]

/-- C5 witness: the happy-path scenario — the LLM returned the finite risk
`1.5`, which is not NaN, so the clamp lands in `[0,1]` and the step commits
a risk within bounds. -/
theorem c5_risk_clamped_nonnan_witness :
    (some (PyFloat.num (3 / 2)) : Option PyFloat) ≠ some PyFloat.nan
    ∧ isUnit (clampRisk (some (PyFloat.num (3 / 2)))) = true
    ∧ ((3 : Rat) / 2 > 1 ∧ clampRisk (some (PyFloat.num (3 / 2))) = PyFloat.num 1)
    ∧ (∀ r ∈ (stepMsg emptyState sampleMsg
          (LlmResult.ok ⟨some "Payment issue", some "Billing & Subscriptions",
            some "frustrated", some (some (PyFloat.num (3 / 2))), some "Sorry"⟩)
          "2026-01-28T00:00:01Z" true).1.tickets, ∀ f,
        r.risk = some f → isUnit f = true) := by
  refine ⟨by decide, c5_risk_clamped_nonnan.1 _ (by decide),
    ⟨by norm_num, c5_risk_clamped_nonnan.2.2.2.1 (3 / 2) (by norm_num)⟩, ?_⟩
  exact c5_risk_clamped_nonnan.2.2.2.2.2.2 emptyState sampleMsg _ _ true
    (by intro r hr; simp [emptyState] at hr)
    (by intro obj hobj; cases hobj; decide)

/-- C4: processing is idempotent per `event_id` — `mark_processed` is
insert-if-absent (re-inserting an already recorded id leaves the ledger
unchanged and raises no error, which the total function models), and a step
on a message whose `event_id` is already in `processed_events` performs no
store writes, emits no output event, and only commits the offset (the state
is returned unchanged). -/
theorem c4_idempotent_processing :
    (∀ (led : List String) (e : String), e ∈ led → markProcessed led e = led)
    ∧ (∀ (led : List String) (e : String),
        markProcessed (markProcessed led e) e = markProcessed led e)
    ∧ (∀ (st : State) (msg : Msg) (t : TicketEvent) (llm : LlmResult) (now : String)
        (storeOk : Bool),
        msg.decoded = MsgDecode.valid t → validateTicket t = true →
        t.event_id ∈ st.processed →
        stepMsg st msg llm now storeOk = (st, ⟨true, false, false, false, true⟩)) := by
  refine ⟨?_, ?_, ?_⟩
  · intro led e he
    simp [markProcessed, he]
  · intro led e
    by_cases he : e ∈ led
    · simp [markProcessed, he]
    · simp [markProcessed, he]
  · intro st msg t llm now storeOk hdec hval hmem
    simp [stepMsg, hdec, hval, hmem]

/-- C4 witness: replaying `sampleTicket` against a ledger already holding its
`event_id` returns the state unchanged with only the offset committed. -/
theorem c4_idempotent_processing_witness :
    sampleTicket.event_id ∈ (State.mk ["evt-12345678"] [] [] []).processed
    ∧ stepMsg ⟨["evt-12345678"], [], [], []⟩ sampleMsg (LlmResult.ok emptyLlmObj)
        "2026-01-28T00:00:01Z" true
      = (⟨["evt-12345678"], [], [], []⟩, ⟨true, false, false, false, true⟩) := by
  refine ⟨by decide, ?_⟩
  exact c4_idempotent_processing.2.2 ⟨["evt-12345678"], [], [], []⟩ sampleMsg sampleTicket
    (LlmResult.ok emptyLlmObj) "2026-01-28T00:00:01Z" true rfl (by decide) (by decide)

/-- C3 (failing-input evaluation): when the LLM reply parses to the empty
JSON object, the step commits the `enriched_tickets`/`processed_events`
transaction (`storeCommitted = true`, the ledger now holds the event id) but
publishes nothing on the output topic (`published = false`, empty `outLog`):
`validate(out, ENRICHED_EVENT_SCHEMA)` runs only after `conn.commit()` and
its failure on the missing `summary` routes the message to the DLQ. The
claimed commit/publish pairing is violated on this terminal arc. -/
theorem c3_commit_without_publish :
    (stepMsg emptyState sampleMsg (LlmResult.ok emptyLlmObj) "2026-01-28T00:00:01Z" true).2
      = ⟨true, false, true, true, false⟩
    ∧ (stepMsg emptyState sampleMsg (LlmResult.ok emptyLlmObj)
        "2026-01-28T00:00:01Z" true).1.processed = ["evt-12345678"]
    ∧ (stepMsg emptyState sampleMsg (LlmResult.ok emptyLlmObj)
        "2026-01-28T00:00:01Z" true).1.outLog = [] := by
  refine ⟨?_, ?_, ?_⟩ <;> decide

/-- C10: when the parsed LLM object misses any of `category`, `sentiment`,
`risk`, `suggested_reply` (or holds `None`/empty values), the normalizers
return the documented defaults (the Lean functions are total, mirroring that
the Python normalizers raise on no input), and the pipeline carries those
defaults into the committed row. -/
theorem c10_missing_fields_default :
    normalizeCategory none = "general"
    ∧ normalizeCategory (some "") = "general"
    ∧ normalizeSentiment none = "neutral"
    ∧ normalizeSentiment (some "") = "neutral"
    ∧ clampRisk (riskLookup none) = PyFloat.num 0
    ∧ clampRisk (riskLookup (some none)) = PyFloat.num 0
    ∧ trimReply none = ""
    ∧ trimReply (some "") = ""
    ∧ ((stepMsg emptyState sampleMsg (LlmResult.ok emptyLlmObj)
        "2026-01-28T00:00:01Z" true).1.tickets.map
          (fun r => (r.category, r.sentiment, r.risk, r.suggested_reply))
        = [(some "general", some "neutral", some (PyFloat.num 0), some "")]) := by
  refine ⟨rfl, rfl, rfl, rfl, rfl, rfl, rfl, rfl, ?_⟩
  decide

theorem firstMatchCategory_mem (v : String) : firstMatchCategory v ∈ CATEGORY_ENUM := by
  unfold firstMatchCategory
  cases hf : CATEGORY_RULES.find? (fun r => r.1.any fun k => substrOf k v) with
  | none => decide
  | some r =>
    have hr := List.mem_of_find?_eq_some hf
    simp only [CATEGORY_RULES, List.mem_cons, List.not_mem_nil, or_false] at hr
    rcases hr with rfl | rfl | rfl | rfl | rfl | rfl | rfl | rfl <;> decide

/-- C7: the category normalizer always lands in the category enum, and it
equals the spec's description — the lowercased/trimmed value itself when in
the enum, otherwise the first matching rule of the fixed keyword table
(`CATEGORY_RULES`), and `general` when no rule matches. -/
theorem c7_category_normalizer (s : String) :
    normalizeCategory (some s) ∈ CATEGORY_ENUM
    ∧ normalizeCategory (some s)
        = (if pyLower (pyStrip s) ∈ CATEGORY_ENUM then pyLower (pyStrip s)
           else firstMatchCategory (pyLower (pyStrip s))) := by
  by_cases hs : s = ""
  · subst hs
    refine ⟨by simp [normalizeCategory, CATEGORY_ENUM], ?_⟩
    have h0 : pyLower (pyStrip "") = "" := rfl
    rw [h0, if_neg (by simp [CATEGORY_ENUM])]
    rfl
  · have hchain : ∀ v : String,
        (if CATEGORY_ENUM.contains v = true then v
         else if (substrOf "billing" v || substrOf "invoice" v || substrOf "refund" v
             || substrOf "charge" v) = true then "billing"
         else if (substrOf "security" v || substrOf "breach" v || substrOf "incident" v) = true
           then "security_incident"
         else if (substrOf "refresh" v || (substrOf "data" v && substrOf "refresh" v)) = true
           then "data_refresh"
         else if substrOf "export" v = true then "exports"
         else if (substrOf "feature" v || substrOf "roadmap" v) = true then "feature_request"
         else if (substrOf "oauth" v || substrOf "api key" v || substrOf "integration" v) = true
           then "integration"
         else if (substrOf "alert" v || substrOf "notification" v || substrOf "slack" v) = true
           then "notifications"
         else if (substrOf "login" v || substrOf "password" v || substrOf "account" v
             || substrOf "access" v) = true then "account_access"
         else "general")
        = (if v ∈ CATEGORY_ENUM then v else firstMatchCategory v) := by
      intro v
      by_cases hmem : v ∈ CATEGORY_ENUM
      · have : CATEGORY_ENUM.contains v = true := by simpa using hmem
        simp [this, hmem]
      · have hc : ¬ (CATEGORY_ENUM.contains v = true) := by simpa using hmem
        rw [if_neg hc, if_neg hmem]
        simp only [firstMatchCategory, CATEGORY_RULES]
        by_cases h1 : (substrOf "billing" v || substrOf "invoice" v || substrOf "refund" v
            || substrOf "charge" v) = true
        · rw [List.find?_cons_of_pos _ (by simp only [List.any]; simpa [Bool.or_assoc] using h1)]
          simp [h1]
        · rw [List.find?_cons_of_neg _ (by simp only [List.any]; simpa [Bool.or_assoc] using h1)]
          rw [if_neg h1]
          by_cases h2 : (substrOf "security" v || substrOf "breach" v
              || substrOf "incident" v) = true
          · rw [List.find?_cons_of_pos _ (by simp only [List.any]; simpa [Bool.or_assoc] using h2)]
            simp [h2]
          · rw [List.find?_cons_of_neg _ (by simp only [List.any]; simpa [Bool.or_assoc] using h2)]
            rw [if_neg h2]
            by_cases h3 : (substrOf "refresh" v
                || (substrOf "data" v && substrOf "refresh" v)) = true
            · have h3' : substrOf "refresh" v = true := by
                cases hr : substrOf "refresh" v <;> simp_all
              rw [List.find?_cons_of_pos _ (by simp only [List.any]; simpa using h3')]
              simp [h3]
            · have h3' : ¬ (substrOf "refresh" v = true) := by
                cases hr : substrOf "refresh" v <;> simp_all
              rw [List.find?_cons_of_neg _ (by simp only [List.any]; simpa using h3')]
              rw [if_neg h3]
              by_cases h4 : substrOf "export" v = true
              · rw [List.find?_cons_of_pos _ (by simp only [List.any]; simpa using h4)]
                simp [h4]
              · rw [List.find?_cons_of_neg _ (by simp only [List.any]; simpa using h4)]
                rw [if_neg h4]
                by_cases h5 : (substrOf "feature" v || substrOf "roadmap" v) = true
                · rw [List.find?_cons_of_pos _
                    (by simp only [List.any]; simpa [Bool.or_assoc] using h5)]
                  simp [h5]
                · rw [List.find?_cons_of_neg _
                    (by simp only [List.any]; simpa [Bool.or_assoc] using h5)]
                  rw [if_neg h5]
                  by_cases h6 : (substrOf "oauth" v || substrOf "api key" v
                      || substrOf "integration" v) = true
                  · rw [List.find?_cons_of_pos _
                      (by simp only [List.any]; simpa [Bool.or_assoc] using h6)]
                    simp [h6]
                  · rw [List.find?_cons_of_neg _
                      (by simp only [List.any]; simpa [Bool.or_assoc] using h6)]
                    rw [if_neg h6]
                    by_cases h7 : (substrOf "alert" v || substrOf "notification" v
                        || substrOf "slack" v) = true
                    · rw [List.find?_cons_of_pos _
                        (by simp only [List.any]; simpa [Bool.or_assoc] using h7)]
                      simp [h7]
                    · rw [List.find?_cons_of_neg _
                        (by simp only [List.any]; simpa [Bool.or_assoc] using h7)]
                      rw [if_neg h7]
                      by_cases h8 : (substrOf "login" v || substrOf "password" v
                          || substrOf "account" v || substrOf "access" v) = true
                      · rw [List.find?_cons_of_pos _
                          (by simp only [List.any]; simpa [Bool.or_assoc] using h8)]
                        simp [h8]
                      · rw [List.find?_cons_of_neg _
                          (by simp only [List.any]; simpa [Bool.or_assoc] using h8)]
                        rw [if_neg h8]
                        rfl
    have hnc : normalizeCategory (some s)
        = if pyLower (pyStrip s) ∈ CATEGORY_ENUM then pyLower (pyStrip s)
          else firstMatchCategory (pyLower (pyStrip s)) := by
      rw [← hchain (pyLower (pyStrip s))]
      simp only [normalizeCategory]
      rw [if_neg hs]
    refine ⟨?_, hnc⟩
    rw [hnc]
    split
    · rename_i h
      exact h
    · exact firstMatchCategory_mem _

theorem mergeGo_append (l m : Nat) :
    ∀ (sec acc : List KbChunk) (added : Nat),
      ∃ t, mergeGo l m sec acc added = acc ++ t
        ∧ (∀ c ∈ t, c ∈ sec ∧ ∀ i : Int, c.id = some i → i ∉ acc.filterMap KbChunk.id)
        ∧ added + t.length ≤ max added m := by
  intro sec
  induction sec with
  | nil =>
    intro acc added
    exact ⟨[], by simp [mergeGo], by simp, by simp⟩
  | cons c rest ih =>
    intro acc added
    rw [mergeGo]
    split
    · exact ⟨[], by simp, by simp, by simp⟩
    · rename_i hguard
      push_neg at hguard
      have hadded : added < m := hguard.2
      have step : ∀ (hnotin : ∀ i : Int,
              c.id = some i → i ∉ acc.filterMap KbChunk.id),
          ∃ t, mergeGo l m rest (acc ++ [c]) (added + 1) = acc ++ t
            ∧ (∀ x ∈ t, x ∈ c :: rest ∧ ∀ i : Int,
                x.id = some i → i ∉ acc.filterMap KbChunk.id)
            ∧ added + t.length ≤ max added m := by
        intro hnotin
        obtain ⟨t, ht, hmem, hlen⟩ := ih (acc ++ [c]) (added + 1)
        refine ⟨c :: t, by simpa using ht, ?_, ?_⟩
        · intro x hx
          rcases List.mem_cons.mp hx with rfl | hx
          · exact ⟨List.mem_cons_self _ _, hnotin⟩
          · obtain ⟨hxs, hxid⟩ := hmem x hx
            refine ⟨List.mem_cons_of_mem _ hxs, ?_⟩
            intro i hi
            have := hxid i hi
            simp only [List.filterMap_append] at this
            exact fun hin => this (List.mem_append_left _ hin)
        · have hm : max (added + 1) m = m := Nat.max_eq_right hadded
          have hm' : max added m = m := Nat.max_eq_right (Nat.le_of_lt hadded)
          rw [hm] at hlen
          rw [hm']
          simp only [List.length_cons]
          omega
      split
      · rename_i i hid
        split
        · rename_i hin
          obtain ⟨t, ht, hmem, hlen⟩ := ih acc added
          refine ⟨t, ht, fun x hx => ?_, hlen⟩
          obtain ⟨hxs, hxid⟩ := hmem x hx
          exact ⟨List.mem_cons_of_mem _ hxs, hxid⟩
        · rename_i hin
          exact step (fun j hj => by
            rw [hid] at hj
            cases hj
            exact hin)
      · rename_i hid
        exact step (fun j hj => by rw [hid] at hj; cases hj)

theorem mergeGo_length (l m : Nat) :
    ∀ (sec acc : List KbChunk) (added : Nat),
      (mergeGo l m sec acc added).length ≤ max acc.length l := by
  intro sec
  induction sec with
  | nil => intro acc added; simp [mergeGo]
  | cons c rest ih =>
    intro acc added
    rw [mergeGo]
    split
    · exact Nat.le_max_left _ _
    · rename_i hguard
      push_neg at hguard
      have hacc : acc.length < l := hguard.1
      have hgrow : (mergeGo l m rest (acc ++ [c]) (added + 1)).length
          ≤ max acc.length l := by
        have := ih (acc ++ [c]) (added + 1)
        simp only [List.length_append, List.length_singleton] at this
        have hm : max (acc.length + 1) l = l := Nat.max_eq_right hacc
        have hm' : l ≤ max acc.length l := Nat.le_max_right _ _
        omega
      split
      · split
        · exact ih acc added
        · exact hgrow
      · exact hgrow

theorem mergeGo_nodup (l m : Nat) :
    ∀ (sec acc : List KbChunk) (added : Nat),
      (acc.filterMap KbChunk.id).Nodup →
      ((mergeGo l m sec acc added).filterMap KbChunk.id).Nodup := by
  intro sec
  induction sec with
  | nil => intro acc added h; simpa [mergeGo] using h
  | cons c rest ih =>
    intro acc added h
    rw [mergeGo]
    split
    · exact h
    · have hgrow : ∀ hnotin : (∀ i : Int, c.id = some i → i ∉ acc.filterMap KbChunk.id),
          ((mergeGo l m rest (acc ++ [c]) (added + 1)).filterMap KbChunk.id).Nodup := by
        intro hnotin
        refine ih (acc ++ [c]) (added + 1) ?_
        rw [List.filterMap_append]
        cases hid : c.id with
        | none => simpa [hid] using h
        | some i =>
          simp only [hid, List.filterMap_cons, List.filterMap_nil]
          exact List.Nodup.append h (List.nodup_singleton i)
            (by
              intro j hj hj'
              simp only [List.mem_singleton] at hj'
              subst hj'
              exact hnotin j hid hj)
      split
      · split
        · exact ih acc added h
        · rename_i i hid hin
          exact hgrow (fun j hj => by rw [hid] at hj; cases hj; exact hin)
      · rename_i hid
        exact hgrow (fun j hj => by rw [hid] at hj; cases hj)

/-- C1 (spec-modelled): the consumer's candidate list — with hybrid search
disabled it is the dense list truncated to `KB_CANDIDATES`; with hybrid
search enabled it is the deterministic positional merge: the dense
candidates in order as a prefix, followed by keyword candidates only, each
with an `id` not already present among the dense ids, at most
`HYBRID_KEYWORD_MAX` of them, the whole list capped by `KB_CANDIDATES`
(never shrinking the dense prefix), and no id duplicated. -/
theorem c1_hybrid_candidate_merge :
    (∀ (k m : Nat) (dense keyword : List KbChunk),
        retrieveCandidates false k m dense keyword = dense.take k)
    ∧ (∀ (k m : Nat) (dense keyword : List KbChunk),
        retrieveCandidates true k m dense keyword = mergeCandidates dense keyword k m)
    ∧ (∀ (p s : List KbChunk) (l m : Nat),
        ∃ t, mergeCandidates p s l m = p ++ t
          ∧ t.length ≤ m
          ∧ (∀ c ∈ t, c ∈ s ∧ ∀ i : Int, c.id = some i → i ∉ p.filterMap KbChunk.id)
          ∧ (mergeCandidates p s l m).length ≤ max p.length l)
    ∧ (∀ (p s : List KbChunk) (l m : Nat),
        (p.filterMap KbChunk.id).Nodup →
        ((mergeCandidates p s l m).filterMap KbChunk.id).Nodup) := by
  refine ⟨fun k m dense keyword => rfl, fun k m dense keyword => rfl, ?_, ?_⟩
  · intro p s l m
    obtain ⟨t, ht, hmem, hlen⟩ := mergeGo_append l m s p 0
    exact ⟨t, ht, by simpa using hlen, hmem, mergeGo_length l m s p 0⟩
  · intro p s l m h
    exact mergeGo_nodup l m s p 0 h

/-- C1 witness: the unit-test vector of `_merge_candidates` — primary ids
`[1, 2]`, secondary ids `[3, 4, 5]`, limit `10`, at most one secondary
entry: the merge is `[1, 2, 3]`, its ids stay duplicate-free, and with
hybrid search disabled the dense list is just truncated. -/
theorem c1_hybrid_candidate_merge_witness :
    retrieveCandidates false 1 20
        [⟨some 1, none, none, none⟩, ⟨some 2, none, none, none⟩] []
      = [⟨some 1, none, none, none⟩]
    ∧ mergeCandidates [⟨some 1, none, none, none⟩, ⟨some 2, none, none, none⟩]
        [⟨some 3, none, none, none⟩, ⟨some 4, none, none, none⟩, ⟨some 5, none, none, none⟩]
        10 1
      = [⟨some 1, none, none, none⟩, ⟨some 2, none, none, none⟩, ⟨some 3, none, none, none⟩]
    ∧ (([⟨some 1, none, none, none⟩, ⟨some 2, none, none, none⟩] : List KbChunk).filterMap
        KbChunk.id).Nodup
    ∧ ((mergeCandidates [⟨some 1, none, none, none⟩, ⟨some 2, none, none, none⟩]
        [⟨some 3, none, none, none⟩, ⟨some 4, none, none, none⟩, ⟨some 5, none, none, none⟩]
        10 1).filterMap KbChunk.id).Nodup := by
  refine ⟨c1_hybrid_candidate_merge.1 1 20 _ _ ▸ by decide, by decide, by decide, ?_⟩
  exact c1_hybrid_candidate_merge.2.2.2 _ _ 10 1 (by decide)

/-- C2 (spec-modelled): `_build_citations` — every retrieved chunk that
still has an `id` contributes exactly the entry
`{chunk_id, title or "Untitled", heading_path or ""}`, every citation comes
from a chunk of the retrieved set with that id (citation integrity), and
chunks without an `id` are dropped. -/
theorem c2_citations_from_retrieved :
    (∀ (chunks : List KbChunk) (c : KbChunk), c ∈ chunks → ∀ i : Int, c.id = some i →
        (⟨i, pyOr c.title "Untitled", pyOr c.heading_path ""⟩ : Citation)
          ∈ buildCitations chunks)
    ∧ (∀ (chunks : List KbChunk) (cit : Citation), cit ∈ buildCitations chunks →
        ∃ c ∈ chunks, c.id = some cit.chunk_id
          ∧ cit.title = pyOr c.title "Untitled"
          ∧ cit.heading_path = pyOr c.heading_path "")
    ∧ (∀ chunks : List KbChunk, (∀ c ∈ chunks, c.id = none) →
        buildCitations chunks = []) := by
  refine ⟨?_, ?_, ?_⟩
  · intro chunks c hc i hi
    refine List.mem_filterMap.mpr ⟨c, hc, ?_⟩
    rw [hi]
  · intro chunks cit hcit
    obtain ⟨c, hc, hf⟩ := List.mem_filterMap.mp hcit
    refine ⟨c, hc, ?_⟩
    cases hid : c.id with
    | none => rw [hid] at hf; cases hf
    | some i =>
      rw [hid] at hf
      cases hf
      exact ⟨rfl, rfl, rfl⟩
  · intro chunks hall
    simp only [buildCitations]
    exact List.filterMap_eq_nil_iff.mpr (fun c hc => by rw [hall c hc])

/-- C2 witness: the unit-test vector of `_build_citations` — a chunk with
missing title/heading defaults them, and a chunk with no `id` produces no
citation. -/
theorem c2_citations_from_retrieved_witness :
    (⟨1, "Doc A", "Intro"⟩ : Citation) ∈ buildCitations
        [⟨some 1, some "Doc A", some "Intro", none⟩, ⟨some 2, none, none, none⟩,
         ⟨none, some "No ID", none, none⟩]
    ∧ buildCitations [⟨none, some "No ID", none, none⟩] = [] := by
  constructor
  · exact c2_citations_from_retrieved.1 _ ⟨some 1, some "Doc A", some "Intro", none⟩
      (by decide) 1 rfl
  · exact c2_citations_from_retrieved.2.2 _ (by decide)

/-- Total character mass of a list of blocks. -/
def lenSum (parts : List String) : Nat := (parts.map String.length).sum

theorem pyJoin_blank_length :
    ∀ parts : List String, parts ≠ [] →
      (pyJoin "\n\n" parts).length + 2 = lenSum parts + 2 * parts.length := by
  intro parts
  induction parts with
  | nil => intro h; cases h rfl
  | cons p rest ih =>
    intro _
    cases rest with
    | nil => simp [pyJoin, lenSum]
    | cons q rest' =>
      have hlen := ih (by simp)
      have h2 : ("\n\n" : String).length = 2 := rfl
      show ((p ++ "\n\n" ++ pyJoin "\n\n" (q :: rest')).length) + 2 = _
      simp only [String.length_append, h2, lenSum, List.map_cons, List.sum_cons,
        List.length_cons] at hlen ⊢
      omega

theorem pyTake_length (s : String) (n : Nat) : (pyTake s n).length ≤ n := by
  show (s.data.take n).length ≤ n
  simp [List.length_take]

theorem formatGo_budget (maxChars : Nat) :
    ∀ (chunks : List KbChunk) (parts : List String) (total : Nat),
      total = lenSum parts + 2 * parts.length → total ≤ maxChars →
      (pyJoin "\n\n" (formatGo maxChars chunks parts total)).length ≤ maxChars := by
  have hjoin : ∀ (parts : List String) (total : Nat),
      total = lenSum parts + 2 * parts.length → total ≤ maxChars →
      (pyJoin "\n\n" parts).length ≤ maxChars := by
    intro parts total hinv hle
    cases hp : parts with
    | nil => simp [pyJoin]
    | cons p rest =>
      have hj := pyJoin_blank_length (p :: rest) (by simp)
      rw [hp] at hinv
      omega
  intro chunks
  induction chunks with
  | nil =>
    intro parts total hinv hle
    exact hjoin parts total hinv hle
  | cons c rest ih =>
    intro parts total hinv hle
    rw [formatGo]
    split
    · exact ih parts total hinv hle
    · split
      · -- budget reached: truncate (or drop) and stop
        dsimp only
        split
        · rename_i hover hpos
          cases hp : parts with
          | nil =>
            rw [hp] at hinv
            have htot : total = 0 := by simpa [lenSum] using hinv
            have htk := pyTake_length (chunkBlock c) (maxChars - total)
            show (pyJoin "\n\n"
              ([] ++ [pyTake (chunkBlock c) (maxChars - total)])).length ≤ maxChars
            simp only [List.nil_append]
            show (pyTake (chunkBlock c) (maxChars - total)).length ≤ maxChars
            omega
          | cons p prest =>
            rw [hp] at hinv
            have hne : (p :: prest) ++ [pyTake (chunkBlock c) (maxChars - total)] ≠ [] := by
              simp
            have hj := pyJoin_blank_length
              ((p :: prest) ++ [pyTake (chunkBlock c) (maxChars - total)]) hne
            have hlp : lenSum ((p :: prest) ++ [pyTake (chunkBlock c) (maxChars - total)])
                = lenSum (p :: prest) + (pyTake (chunkBlock c) (maxChars - total)).length := by
              simp only [lenSum, List.map_append, List.sum_append, List.map_cons,
                List.map_nil, List.sum_cons, List.sum_nil]
              omega
            have htk := pyTake_length (chunkBlock c) (maxChars - total)
            rw [hlp] at hj
            simp only [List.length_append, List.length_singleton] at hj
            omega
        · exact hjoin parts total hinv hle
      · -- block fits: append and continue
        refine ih (parts ++ [chunkBlock c]) (total + (chunkBlock c).length + 2) ?_ ?_
        · simp only [lenSum, List.map_append, List.sum_append, List.length_append,
            List.map_cons, List.sum_cons, List.map_nil, List.sum_nil,
            List.length_singleton]
          simp only [lenSum] at hinv
          omega
        · rename_i hover
          omega

/-- C6: the assembled KB-context string never exceeds the character budget —
for every list of retrieved chunks and every budget, and in particular for
the default 4000-character budget: blocks are formatted and joined with
blank lines in order, and the block that would overflow is truncated to the
remaining space, stopping iteration. -/
theorem c6_kb_context_budget :
    (∀ (chunks : List KbChunk) (maxChars : Nat),
        (formatKbContext chunks maxChars).length ≤ maxChars)
    ∧ (∀ chunks : List KbChunk, (formatKbContext chunks).length ≤ 4000) := by
  have h : ∀ (chunks : List KbChunk) (maxChars : Nat),
      (formatKbContext chunks maxChars).length ≤ maxChars := by
    intro chunks maxChars
    rw [formatKbContext]
    split
    · simp
    · exact formatGo_budget maxChars chunks [] 0 (by simp [lenSum]) (Nat.zero_le _)
  exact ⟨h, fun chunks => h chunks 4000⟩

theorem length_dropWhile_le (p : Char → Bool) (l : List Char) :
    (l.dropWhile p).length ≤ l.length := by
  induction l with
  | nil => simp [List.dropWhile]
  | cons c rest ih =>
    rw [List.dropWhile]
    split
    · exact Nat.le_succ_of_le ih
    · exact Nat.le_refl _

theorem pyStrip_length_le (s : String) : (pyStrip s).length ≤ s.length := by
  show (((s.data.dropWhile Char.isWhitespace).reverse.dropWhile
      Char.isWhitespace).reverse).length ≤ s.data.length
  rw [List.length_reverse]
  calc ((s.data.dropWhile Char.isWhitespace).reverse.dropWhile Char.isWhitespace).length
      ≤ (s.data.dropWhile Char.isWhitespace).reverse.length :=
        length_dropWhile_le _ _
    _ = (s.data.dropWhile Char.isWhitespace).length := List.length_reverse _
    _ ≤ s.data.length := length_dropWhile_le _ _

theorem pySlice_length_le (s : String) (a b : Nat) : (pySlice s a b).length ≤ b - a := by
  show ((s.data.take b).drop a).length ≤ b - a
  rw [List.length_drop, List.length_take]
  omega

theorem pushChunk_bound (cs : Nat) (value hp : String) (chunks : List ChunkOut)
    (hv : value.length ≤ cs) (hacc : ∀ x ∈ chunks, x.content.length ≤ cs) :
    ∀ x ∈ pushChunk value hp chunks, x.content.length ≤ cs := by
  intro x hx
  rw [pushChunk] at hx
  split at hx
  · exact hacc x hx
  · rcases List.mem_append.mp hx with hx | hx
    · exact hacc x hx
    · simp only [List.mem_singleton] at hx
      subst hx
      exact Nat.le_trans (pyStrip_length_le value) hv

theorem sliceGo_bound (cs ov : Nat) (hlt : ov < cs) (tb hp : String) :
    ∀ (fuel start : Nat) (chunks : List ChunkOut), tb.length - start ≤ fuel →
      (∀ x ∈ chunks, x.content.length ≤ cs) →
      ∀ x ∈ sliceGo cs ov hlt tb hp start chunks, x.content.length ≤ cs := by
  intro fuel
  induction fuel with
  | zero =>
    intro start chunks hfuel hacc
    rw [sliceGo]
    split
    · omega
    · exact hacc
  | succ n ih =>
    intro start chunks hfuel hacc
    rw [sliceGo]
    dsimp only
    split
    · rename_i hs
      have hval : (pySlice tb start (min (start + cs) tb.length)).length ≤ cs := by
        have := pySlice_length_le tb start (min (start + cs) tb.length)
        omega
      have hacc' := pushChunk_bound cs (pySlice tb start (min (start + cs) tb.length))
        hp chunks hval hacc
      split
      · exact hacc'
      · rename_i he
        refine ih (min (start + cs) tb.length - ov) _ ?_ hacc'
        have h1 : start + cs < tb.length := by
          rcases Nat.lt_or_ge (start + cs) tb.length with h | h
          · exact h
          · exact absurd (Nat.min_eq_right h) he
        have h2 : min (start + cs) tb.length = start + cs :=
          Nat.min_eq_left (Nat.le_of_lt h1)
        rw [h2]
        omega
    · exact hacc

theorem assembleGo_bound (cs ov : Nat) (hlt : ov < cs) :
    ∀ (paras : List Para) (buf bh : String) (chunks : List ChunkOut),
      buf.length ≤ cs → (∀ x ∈ chunks, x.content.length ≤ cs) →
      ∀ x ∈ assembleGo cs ov hlt paras buf bh chunks, x.content.length ≤ cs := by
  intro paras
  induction paras with
  | nil =>
    intro buf bh chunks hbuf hacc
    rw [assembleGo]
    split
    · exact pushChunk_bound cs buf bh chunks hbuf hacc
    · exact hacc
  | cons para rest ih =>
    intro buf bh chunks hbuf hacc
    have hcont : ∀ (buf1 bh1 : String) (chunks1 : List ChunkOut),
        buf1.length ≤ cs → (∀ x ∈ chunks1, x.content.length ≤ cs) →
        ∀ x ∈ (if cs ≤ para.text.length then
            assembleGo cs ov hlt rest "" ""
              (sliceGo cs ov hlt para.text para.heading_path 0
                (if buf1 ≠ "" then pushChunk buf1 bh1 chunks1 else chunks1))
          else if buf1 = "" then
            assembleGo cs ov hlt rest para.text para.heading_path chunks1
          else if (buf1 ++ "\n\n" ++ para.text).length ≤ cs then
            assembleGo cs ov hlt rest (buf1 ++ "\n\n" ++ para.text) bh1 chunks1
          else assembleGo cs ov hlt rest para.text para.heading_path
            (pushChunk buf1 bh1 chunks1)),
          x.content.length ≤ cs := by
      intro buf1 bh1 chunks1 hbuf1 hacc1
      split
      · refine ih "" "" _ (by simp) ?_
        refine sliceGo_bound cs ov hlt para.text para.heading_path
          para.text.length 0 _ (by omega) ?_
        split
        · exact pushChunk_bound cs buf1 bh1 chunks1 hbuf1 hacc1
        · exact hacc1
      · rename_i hbig
        split
        · exact ih para.text para.heading_path _ (by omega) hacc1
        · split
          · rename_i hcand
            exact ih _ _ _ hcand hacc1
          · exact ih para.text para.heading_path _ (by omega)
              (pushChunk_bound cs buf1 bh1 chunks1 hbuf1 hacc1)
    rw [assembleGo]
    dsimp only
    by_cases hfl : buf ≠ "" ∧ para.heading_path ≠ "" ∧ bh ≠ "" ∧ para.heading_path ≠ bh
    · rw [if_pos hfl]
      exact hcont "" "" (pushChunk buf bh chunks) (by simp)
        (pushChunk_bound cs buf bh chunks hbuf hacc)
    · rw [if_neg hfl]
      exact hcont buf bh chunks hbuf hacc

/-- C8: for `chunk_size > overlap`, every chunk emitted by the KB chunker
has content of length at most `chunk_size`; for `chunk_size ≤ overlap` the
chunker raises a `ValueError` instead of producing chunks. -/
theorem c8_chunk_size_bound (text : String) (cs ov : Nat) :
    (cs ≤ ov → chunkText text cs ov
        = Except.error "chunk_size must be greater than overlap")
    ∧ (∀ l, chunkText text cs ov = Except.ok l →
        ∀ c ∈ l, c.content.length ≤ cs) := by
  constructor
  · intro h
    rw [chunkText, dif_pos h]
  · intro l hl c hc
    rw [chunkText] at hl
    split at hl
    · cases hl
    · rename_i h
      cases hl
      exact assembleGo_bound cs ov _ (splitParagraphs text) "" "" [] (by simp)
        (by intro x hx; cases hx) c hc

/-- C8 witness: `chunk_size = 1 ≤ 2 = overlap` raises; on a small text with
`chunk_size = 5 > 1 = overlap` the emitted chunk respects the bound. -/
theorem c8_chunk_size_bound_witness :
    (1 : Nat) ≤ 2
    ∧ chunkText "ab" 1 2 = Except.error "chunk_size must be greater than overlap"
    ∧ chunkText "hi" 5 1 = Except.ok [⟨"hi", ""⟩]
    ∧ (⟨"hi", ""⟩ : ChunkOut).content.length ≤ 5 := by
  refine ⟨by decide, (c8_chunk_size_bound "ab" 1 2).1 (by decide), rfl, ?_⟩
  exact (c8_chunk_size_bound "hi" 5 1).2 [⟨"hi", ""⟩] rfl ⟨"hi", ""⟩ (by decide)

theorem mem_flushParagraph {cur : List String} {stack : List (Nat × String)}
    {acc : List Para} {p : Para} (h : p ∈ flushParagraph cur stack acc) :
    p ∈ acc ∨ p.is_heading = false := by
  rw [flushParagraph] at h
  split at h
  · exact Or.inl h
  · rcases List.mem_append.mp h with h | h
    · exact Or.inl h
    · simp only [List.mem_singleton] at h
      subst h
      exact Or.inr rfl

theorem flushParagraph_mono {cur : List String} {stack : List (Nat × String)}
    {acc : List Para} {p : Para} (h : p ∈ acc) : p ∈ flushParagraph cur stack acc := by
  rw [flushParagraph]
  split
  · exact h
  · exact List.mem_append_left _ h

theorem linesGo_mono :
    ∀ (lines cur : List String) (stack : List (Nat × String)) (acc : List Para)
      (p : Para), p ∈ acc → p ∈ linesGo lines cur stack acc := by
  intro lines
  induction lines with
  | nil =>
    intro cur stack acc p hp
    exact flushParagraph_mono hp
  | cons line rest ih =>
    intro cur stack acc p hp
    rw [linesGo]
    split
    · exact ih _ _ _ p (List.mem_append_left _ (flushParagraph_mono hp))
    · split
      · exact ih _ _ _ p (flushParagraph_mono hp)
      · exact ih _ _ _ p hp

theorem linesGo_heading_sound (L : List String) :
    ∀ (lines cur : List String) (stack : List (Nat × String)) (acc : List Para),
      (∀ l ∈ lines, l ∈ L) →
      (∀ p ∈ acc, p.is_heading = true →
        ∃ l ∈ L, p.text = pyStrip l ∧ pyStartsWith (pyStrip l) "#" = true) →
      ∀ p ∈ linesGo lines cur stack acc, p.is_heading = true →
        ∃ l ∈ L, p.text = pyStrip l ∧ pyStartsWith (pyStrip l) "#" = true := by
  intro lines
  induction lines with
  | nil =>
    intro cur stack acc _ hacc p hp hhead
    rcases mem_flushParagraph hp with hp | hp
    · exact hacc p hp hhead
    · rw [hhead] at hp
      cases hp
  | cons line rest ih =>
    intro cur stack acc hsub hacc p hp hhead
    rw [linesGo] at hp
    split at hp
    · rename_i hline
      refine ih _ _ _ (fun l hl => hsub l (List.mem_cons_of_mem _ hl)) ?_ p hp hhead
      intro p' hp' hhead'
      rcases List.mem_append.mp hp' with hp' | hp'
      · rcases mem_flushParagraph hp' with hp' | hp'
        · exact hacc p' hp' hhead'
        · rw [hhead'] at hp'
          cases hp'
      · simp only [List.mem_singleton] at hp'
        subst hp'
        exact ⟨line, hsub line (List.mem_cons_self _ _), rfl, hline⟩
    · split at hp
      · refine ih _ _ _ (fun l hl => hsub l (List.mem_cons_of_mem _ hl)) ?_ p hp hhead
        intro p' hp' hhead'
        rcases mem_flushParagraph hp' with hp' | hp'
        · exact hacc p' hp' hhead'
        · rw [hhead'] at hp'
          cases hp'
      · exact ih _ _ _ (fun l hl => hsub l (List.mem_cons_of_mem _ hl)) hacc p hp hhead

theorem linesGo_heading_complete :
    ∀ (lines cur : List String) (stack : List (Nat × String)) (acc : List Para)
      (l : String), l ∈ lines → pyStartsWith (pyStrip l) "#" = true →
      ∃ p ∈ linesGo lines cur stack acc, p.text = pyStrip l ∧ p.is_heading = true := by
  intro lines
  induction lines with
  | nil =>
    intro cur stack acc l hl
    cases hl
  | cons line rest ih =>
    intro cur stack acc l hl hhash
    rcases List.mem_cons.mp hl with rfl | hl
    · rw [linesGo]
      rw [if_pos hhash]
      refine ⟨⟨pyStrip l, currentHeadingPath
          (pushHeading stack (headingLevel (pyStrip l)) (headingText (pyStrip l))), true⟩,
        ?_, rfl, rfl⟩
      exact linesGo_mono _ _ _ _ _ (List.mem_append_right _ (List.mem_singleton.mpr rfl))
    · rw [linesGo]
      split
      · exact ih _ _ _ l hl hhash
      · split
        · exact ih _ _ _ l hl hhash
        · exact ih _ _ _ l hl hhash

/-- C9 counterexample: on the text consisting of the heading line
`# A` followed directly by the body line `hello` (chunk size 1000, overlap
150), the chunker emits exactly one chunk whose content is the heading
concatenated with the paragraph text — the heading line is not emitted as
its own chunk. -/
theorem c9_heading_chunk_counterexample :
    chunkText "# A\nhello" 1000 150 = Except.ok [⟨"# A\n\nhello", "A"⟩]
    ∧ ("# A\n\nhello" : String) ≠ "# A" := by
  exact ⟨rfl, by decide⟩

/-- C9 (amended): each Markdown heading line becomes its own paragraph in
the chunker's paragraph phase — a paragraph flagged `is_heading` has as text
exactly one stripped `#`-line of the input, and every `#`-line yields such a
paragraph — but in chunk assembly a heading paragraph may be concatenated
with following paragraphs sharing its heading path, so it is not in general
its own chunk. -/
theorem c9_heading_own_paragraph :
    (∀ (text : String) (p : Para), p ∈ splitParagraphs text → p.is_heading = true →
      ∃ l ∈ pyLines text, p.text = pyStrip l ∧ pyStartsWith (pyStrip l) "#" = true)
    ∧ (∀ (text : String) (l : String), l ∈ pyLines text →
        pyStartsWith (pyStrip l) "#" = true →
        ∃ p ∈ splitParagraphs text, p.text = pyStrip l ∧ p.is_heading = true) := by
  constructor
  · intro text p hp hhead
    exact linesGo_heading_sound (pyLines text) (pyLines text) [] [] []
      (fun l hl => hl) (fun p' hp' => by cases hp') p hp hhead
  · intro text l hl hhash
    exact linesGo_heading_complete (pyLines text) [] [] [] l hl hhash

/-- C9 witness: on the counterexample text, the heading paragraph `# A`
exists, flagged as a heading, produced from the heading line. -/
theorem c9_heading_own_paragraph_witness :
    (⟨"# A", "A", true⟩ : Para) ∈ splitParagraphs "# A\nhello"
    ∧ ∃ p ∈ splitParagraphs "# A\nhello", p.text = pyStrip "# A" ∧ p.is_heading = true := by
  exact ⟨by decide, c9_heading_own_paragraph.2 "# A\nhello" "# A" (by decide) (by decide)⟩

end SupportIntel
